import Mathlib

/-!
Verification development for the AliFilter Python API
(src/API/Python/alifilter.py).  The Python module is shallowly embedded:
sequences become lists of characters, the Biopython alignment becomes a
list of records, real arithmetic uses Lean reals, and code that raises a
Python exception is modelled with Option (none = exception).
-/

set_option maxHeartbeats 1000000

/-- Embedding of Bio.SeqRecord.SeqRecord as used by AliFilterModel.filter:
the sequence plus the per-row metadata fields that the filter passes to
the new record (id, name, description, dbxrefs, features, annotations,
letter_annotations). -/
structure SeqRecord where
  seq : List Char
  id : String
  name : String
  description : String
  dbxrefs : List String
  features : List String
  annotations : List (String × String)
  letterAnnotations : List (String × String)

/-- Default record used with List.getD when indexing rows. -/
def dRec : SeqRecord := ⟨[], "", "", "", [], [], [], []⟩

/-- len(alignment): the number of sequences (rows). -/
def numSequences (aln : List SeqRecord) : Nat := aln.length

/-- Bio.Align.MultipleSeqAlignment.get_alignment_length: the maximum row
length, 0 for an alignment with no rows. -/
def numColumns (aln : List SeqRecord) : Nat :=
  (aln.map (fun r => r.seq.length)).foldr max 0

/-- The rectangular-alignment invariant: every row has length equal to
the alignment length. -/
def rectangular (aln : List SeqRecord) : Prop :=
  ∀ r ∈ aln, r.seq.length = numColumns aln

instance (aln : List SeqRecord) : Decidable (rectangular aln) :=
  List.decidableBAll _ aln

/-- Character classification of __alifilter_computeColumnFeatures: a
character other than the gap symbol is upper-cased (ord(c.upper())) and
counted as letter number C-65 when 65 <= C <= 90.  Char.toUpper models
Python str.upper on the ASCII alphabet the spec restricts to. -/
def letterIdx (ch : Char) : Option Nat :=
  if ch = '-' then none
  else
    if 65 ≤ ch.toUpper.toNat ∧ ch.toUpper.toNat ≤ 90 then
      some (ch.toUpper.toNat - 65)
    else none

/-- The characters of one alignment column: alignment[i][column] for each
row i (a space default stands for the out-of-range case, unreachable on a
rectangular alignment). -/
def colChars (aln : List SeqRecord) (c : Nat) : List Char :=
  aln.map (fun r => r.seq.getD c ' ')

/-- gapCount of __alifilter_computeColumnFeatures: rows whose character at
the column is the gap symbol. -/
def gapCount (aln : List SeqRecord) (c : Nat) : Nat :=
  (colChars aln c).countP (fun ch => decide (ch = '-'))

/-- counts[j] of __alifilter_computeColumnFeatures: rows whose character
at the column is a non-gap that upper-cases to letter j. -/
def letterCount (aln : List SeqRecord) (c j : Nat) : Nat :=
  (colChars aln c).countP (fun ch => decide (letterIdx ch = some j))

/-- validChars of __alifilter_computeColumnFeatures: rows whose character
at the column is a non-gap upper-casing into the A-Z range. -/
def validChars (aln : List SeqRecord) (c : Nat) : Nat :=
  (colChars aln c).countP (fun ch => (letterIdx ch).isSome)

/-- max(counts): the largest letter count of the column (26 buckets). -/
def maxLetterCount (aln : List SeqRecord) (c : Nat) : Nat :=
  (Finset.range 26).sup (fun j => letterCount aln c j)

/-- feature_matrix[column, 0]: gapCount / len(alignment). -/
noncomputable def gapFraction (aln : List SeqRecord) (c : Nat) : ℝ :=
  (gapCount aln c : ℝ) / (numSequences aln : ℝ)

/-- feature_matrix[column, 1]: max(counts) / len(alignment) when
validChars > 0, otherwise 0. -/
noncomputable def maxIdentityFraction (aln : List SeqRecord) (c : Nat) : ℝ :=
  if 0 < validChars aln c then
    (maxLetterCount aln c : ℝ) / (numSequences aln : ℝ)
  else 0

/-- The entropy sum of __alifilter_computeColumnFeatures: over the 26
letter buckets, 0 if x <= 0 else - x / validChars * log(x / validChars)
(natural log). -/
noncomputable def entropySum (aln : List SeqRecord) (c : Nat) : ℝ :=
  ∑ j ∈ Finset.range 26,
    (if letterCount aln c j = 0 then 0
     else -((letterCount aln c j : ℝ) / (validChars aln c : ℝ) *
       Real.log ((letterCount aln c j : ℝ) / (validChars aln c : ℝ))))

/-- feature_matrix[column, 3]: the entropy sum when validChars > 0,
otherwise 0. -/
noncomputable def shannonEntropy (aln : List SeqRecord) (c : Nat) : ℝ :=
  if 0 < validChars aln c then entropySum aln c else 0

/-- feature_matrix[column, 2]: min(column, get_alignment_length() - 1 - column),
stored as a numeric value. -/
def distanceFromExtremity (aln : List SeqRecord) (c : Nat) : Nat :=
  min c (numColumns aln - 1 - c)

/-- feature_matrix[i, 4] of __alifilter_getAlignmentFeatures: the guarded
three-term neighbourhood average of column gap fractions. -/
noncomputable def gapWindow1 (aln : List SeqRecord) (i : Nat) : ℝ :=
  ((if 0 < i then gapFraction aln (i - 1) else 0) +
    gapFraction aln i +
    (if i < numColumns aln - 1 then gapFraction aln (i + 1) else 0)) /
  (1 + (if 0 < i then (1 : ℝ) else 0) +
    (if i < numColumns aln - 1 then (1 : ℝ) else 0))

/-- feature_matrix[i, 5] of __alifilter_getAlignmentFeatures: the guarded
five-term neighbourhood average of column gap fractions. -/
noncomputable def gapWindow2 (aln : List SeqRecord) (i : Nat) : ℝ :=
  ((if 1 < i then gapFraction aln (i - 2) else 0) +
    (if 0 < i then gapFraction aln (i - 1) else 0) +
    gapFraction aln i +
    (if i < numColumns aln - 1 then gapFraction aln (i + 1) else 0) +
    (if i < numColumns aln - 2 then gapFraction aln (i + 2) else 0)) /
  (1 + (if 1 < i then (2 : ℝ) else if 0 < i then 1 else 0) +
    (if i < numColumns aln - 2 then (2 : ℝ)
     else if i < numColumns aln - 1 then 1 else 0))

/-- One row of the feature matrix, in the fixed field order gapFraction,
maxIdentityFraction, distanceFromExtremity, shannonEntropy, gapWindow1,
gapWindow2. -/
noncomputable def featureRow (aln : List SeqRecord) (c : Nat) : List ℝ :=
  [gapFraction aln c, maxIdentityFraction aln c,
   (distanceFromExtremity aln c : ℝ), shannonEntropy aln c,
   gapWindow1 aln c, gapWindow2 aln c]

/-- __alifilter_getAlignmentFeatures (installed as getAlignmentFeatures):
one feature row per alignment column. -/
noncomputable def featureMatrix (aln : List SeqRecord) : List (List ℝ) :=
  (List.range (numColumns aln)).map (fun c => featureRow aln c)

/-- Embedding of the loaded AliFilterModel instance: the coefficient list
(the transpose to a column vector does not change the stored values), the
intercept and the threshold. -/
structure AliFilterModel where
  logisticModelCoefficients : List ℝ
  logisticModelIntercept : ℝ
  threshold : ℝ

/-- The model configuration file after json.load: each key lookup the
constructor performs either yields a value or raises KeyError, which the
Option models. -/
structure ModelConfig where
  coefficients : Option (List ℝ)
  intercept : Option ℝ
  fastThreshold : Option ℝ

/-- AliFilterModel.__init__ after json.load: reads the Coefficients and
Intercept fields (raising when absent) and defaults the threshold to 0.5
when FastThreshold is absent.  No validation of the coefficient count is
performed. -/
def initModel (cfg : ModelConfig) : Option AliFilterModel :=
  match cfg.coefficients, cfg.intercept with
  | some cs, some ic => some ⟨cs, ic, cfg.fastThreshold.getD 0.5⟩
  | _, _ => none

/-- The logistic sigmoid 1 / (1 + exp(-z)). -/
noncomputable def sigmoid (z : ℝ) : ℝ := 1 / (1 + Real.exp (-z))

/-- numpy.dot of one feature row with the coefficient column vector. -/
noncomputable def dotList (xs ys : List ℝ) : ℝ :=
  (List.zipWith (fun a b => a * b) xs ys).sum

/-- The per-row score of AliFilterModel.getScores:
1 / (1 + exp(-(x + intercept))) with x the dot product of the row with the
coefficients. -/
noncomputable def scoreRow (m : AliFilterModel) (row : List ℝ) : ℝ :=
  sigmoid (dotList row m.logisticModelCoefficients + m.logisticModelIntercept)

/-- AliFilterModel.getScores.  numpy.dot requires every feature row to
have the coefficient count as its width (a shape mismatch raises).
numpy.squeeze of the resulting (n, 1) column is a 0-dimensional array
exactly when n = 1, and iterating a 0-dimensional array raises TypeError;
both exceptional outcomes are modelled by none. -/
noncomputable def AliFilterModel.getScores (m : AliFilterModel)
    (features : List (List ℝ)) : Option (List ℝ) :=
  if ∀ r ∈ features, r.length = m.logisticModelCoefficients.length then
    if features.length = 1 then none
    else some (features.map (fun r => scoreRow m r))
  else none

/-- AliFilterModel.getMaskFromScores: one character per score, the
character being 1 exactly when the score is at least the threshold (the
Python joins these characters into a string). -/
noncomputable def AliFilterModel.getMaskFromScores (m : AliFilterModel)
    (scores : List ℝ) : List Char :=
  scores.map (fun x => if m.threshold ≤ x then '1' else '0')

/-- AliFilterModel.getMaskFromFeatures: mask of the scores of the feature
matrix, propagating a getScores failure. -/
noncomputable def AliFilterModel.getMaskFromFeatures (m : AliFilterModel)
    (features : List (List ℝ)) : Option (List Char) :=
  (m.getScores features).map (fun s => m.getMaskFromScores s)

/-- AliFilterModel.getMask: mask of the alignment's feature matrix. -/
noncomputable def AliFilterModel.getMask (m : AliFilterModel)
    (aln : List SeqRecord) : Option (List Char) :=
  m.getMaskFromFeatures (featureMatrix aln)

/-- The per-row body of AliFilterModel.filter: a new SeqRecord with the
same id, name, description, dbxrefs, features, annotations and
letter_annotations, whose sequence keeps seq[i] for i in
range(len(scores)) with scores[i] >= threshold. -/
noncomputable def filterRow (m : AliFilterModel) (scores : List ℝ)
    (r : SeqRecord) : SeqRecord :=
  { r with seq := (List.range scores.length).filterMap (fun i =>
      if m.threshold ≤ scores.getD i 0 then some (r.seq.getD i ' ')
      else none) }

/-- AliFilterModel.filter: scores the alignment's feature matrix and maps
every record through filterRow, propagating a getScores failure. -/
noncomputable def AliFilterModel.filter (m : AliFilterModel)
    (aln : List SeqRecord) : Option (List SeqRecord) :=
  (m.getScores (featureMatrix aln)).map
    (fun scores => aln.map (fun r => filterRow m scores r))

/-- Modelled from the spec wording (for the refinement comparison): the
existing column indices among i-k, ..., i+k of an alignment with L
columns. -/
def windowIdx (L i k : Nat) : Finset Nat :=
  (Finset.range L).filter (fun j => i ≤ j + k ∧ j ≤ i + k)

/-- Modelled from the spec wording: the average of gapFraction over the
existing columns among i-1, i, i+1, the denominator being the number of
existing columns. -/
noncomputable def window1Spec (aln : List SeqRecord) (i : Nat) : ℝ :=
  (∑ j ∈ windowIdx (numColumns aln) i 1, gapFraction aln j) /
    ((windowIdx (numColumns aln) i 1).card : ℝ)

/-- Modelled from the spec wording: the average of gapFraction over the
existing columns among i-2, ..., i+2, the denominator being the number of
existing columns. -/
noncomputable def window2Spec (aln : List SeqRecord) (i : Nat) : ℝ :=
  (∑ j ∈ windowIdx (numColumns aln) i 2, gapFraction aln j) /
    ((windowIdx (numColumns aln) i 2).card : ℝ)

/-- The guarded three-term average of the second pass equals the
shrinking-denominator average over the existing neighbours, for any
per-column values g and any column i of an L-column alignment. -/
theorem windowAvg1 (g : Nat → ℝ) (L i : Nat) (hi : i < L) :
    ((if 0 < i then g (i - 1) else 0) + g i +
      (if i < L - 1 then g (i + 1) else 0)) /
      (1 + (if 0 < i then (1 : ℝ) else 0) +
        (if i < L - 1 then (1 : ℝ) else 0)) =
    (∑ j ∈ windowIdx L i 1, g j) / ((windowIdx L i 1).card : ℝ) := by
  rcases Nat.eq_zero_or_pos i with rfl | hpos
  · by_cases hL : 1 < L
    · have hs : windowIdx L 0 1 = Finset.range 2 := by
        ext j
        simp only [windowIdx, Finset.mem_filter, Finset.mem_range]
        omega
      rw [hs, Finset.sum_range_succ, Finset.sum_range_succ,
        Finset.sum_range_zero, Finset.card_range]
      rw [if_neg (lt_irrefl 0), if_neg (lt_irrefl 0),
        if_pos (by omega : 0 < L - 1), if_pos (by omega : 0 < L - 1)]
      norm_num
    · have hL1 : L = 1 := by omega
      subst hL1
      have hs : windowIdx 1 0 1 = Finset.range 1 := by
        ext j
        simp only [windowIdx, Finset.mem_filter, Finset.mem_range]
        omega
      rw [hs, Finset.sum_range_succ, Finset.sum_range_zero, Finset.card_range]
      norm_num
  · obtain ⟨k, rfl⟩ : ∃ k, i = k + 1 := ⟨i - 1, by omega⟩
    by_cases hL : k + 2 < L
    · have hs : windowIdx L (k + 1) 1 = insert k (insert (k + 1) {k + 2}) := by
        ext j
        simp only [windowIdx, Finset.mem_filter, Finset.mem_range,
          Finset.mem_insert, Finset.mem_singleton]
        omega
      rw [hs, Finset.sum_insert (by
          simp only [Finset.mem_insert, Finset.mem_singleton]; omega),
        Finset.sum_insert (by
          simp only [Finset.mem_singleton]; omega),
        Finset.sum_singleton,
        Finset.card_insert_of_not_mem (by
          simp only [Finset.mem_insert, Finset.mem_singleton]; omega),
        Finset.card_insert_of_not_mem (by
          simp only [Finset.mem_singleton]; omega),
        Finset.card_singleton]
      rw [if_pos (by omega : 0 < k + 1), if_pos (by omega : 0 < k + 1),
        if_pos (by omega : k + 1 < L - 1), if_pos (by omega : k + 1 < L - 1)]
      norm_num
      ring
    · have hL2 : L = k + 2 := by omega
      subst hL2
      have hs : windowIdx (k + 2) (k + 1) 1 = insert k {k + 1} := by
        ext j
        simp only [windowIdx, Finset.mem_filter, Finset.mem_range,
          Finset.mem_insert, Finset.mem_singleton]
        omega
      rw [hs, Finset.sum_insert (by
          simp only [Finset.mem_singleton]; omega),
        Finset.sum_singleton,
        Finset.card_insert_of_not_mem (by
          simp only [Finset.mem_singleton]; omega),
        Finset.card_singleton]
      rw [if_pos (by omega : 0 < k + 1), if_pos (by omega : 0 < k + 1),
        if_neg (by omega : ¬(k + 1 < k + 2 - 1)),
        if_neg (by omega : ¬(k + 1 < k + 2 - 1))]
      norm_num

/-- The guarded five-term average of the second pass equals the
shrinking-denominator average over the existing neighbours, for any
per-column values g and any column i of an L-column alignment. -/
theorem windowAvg2 (g : Nat → ℝ) (L i : Nat) (hi : i < L) :
    ((if 1 < i then g (i - 2) else 0) +
      (if 0 < i then g (i - 1) else 0) + g i +
      (if i < L - 1 then g (i + 1) else 0) +
      (if i < L - 2 then g (i + 2) else 0)) /
      (1 + (if 1 < i then (2 : ℝ) else if 0 < i then 1 else 0) +
        (if i < L - 2 then (2 : ℝ) else if i < L - 1 then 1 else 0)) =
    (∑ j ∈ windowIdx L i 2, g j) / ((windowIdx L i 2).card : ℝ) := by
  rcases i with _ | _ | k
  · rcases (show L = 1 ∨ L = 2 ∨ 2 < L by omega) with rfl | rfl | hL
    · have hs : windowIdx 1 0 2 = Finset.range 1 := by
        ext j
        simp only [windowIdx, Finset.mem_filter, Finset.mem_range]
        omega
      rw [hs, Finset.sum_range_succ, Finset.sum_range_zero, Finset.card_range]
      norm_num
    · have hs : windowIdx 2 0 2 = Finset.range 2 := by
        ext j
        simp only [windowIdx, Finset.mem_filter, Finset.mem_range]
        omega
      rw [hs, Finset.sum_range_succ, Finset.sum_range_succ,
        Finset.sum_range_zero, Finset.card_range]
      norm_num
    · have hs : windowIdx L 0 2 = Finset.range 3 := by
        ext j
        simp only [windowIdx, Finset.mem_filter, Finset.mem_range]
        omega
      rw [hs, Finset.sum_range_succ, Finset.sum_range_succ,
        Finset.sum_range_succ, Finset.sum_range_zero, Finset.card_range]
      rw [if_neg (by omega : ¬(1 < 0)), if_neg (lt_irrefl 0),
        if_pos (by omega : 0 < L - 1), if_pos (by omega : 0 < L - 2),
        if_neg (by omega : ¬(1 < 0)), if_pos (by omega : 0 < L - 2)]
      norm_num
  · rcases (show L = 2 ∨ L = 3 ∨ 3 < L by omega) with rfl | rfl | hL
    · have hs : windowIdx 2 1 2 = Finset.range 2 := by
        ext j
        simp only [windowIdx, Finset.mem_filter, Finset.mem_range]
        omega
      rw [hs, Finset.sum_range_succ, Finset.sum_range_succ,
        Finset.sum_range_zero, Finset.card_range]
      norm_num
    · have hs : windowIdx 3 1 2 = Finset.range 3 := by
        ext j
        simp only [windowIdx, Finset.mem_filter, Finset.mem_range]
        omega
      rw [hs, Finset.sum_range_succ, Finset.sum_range_succ,
        Finset.sum_range_succ, Finset.sum_range_zero, Finset.card_range]
      norm_num
    · have hs : windowIdx L 1 2 = Finset.range 4 := by
        ext j
        simp only [windowIdx, Finset.mem_filter, Finset.mem_range]
        omega
      rw [hs, Finset.sum_range_succ, Finset.sum_range_succ,
        Finset.sum_range_succ, Finset.sum_range_succ,
        Finset.sum_range_zero, Finset.card_range]
      rw [if_neg (lt_irrefl 1), if_pos (by omega : (0:Nat) < 1),
        if_pos (by omega : 1 < L - 1), if_pos (by omega : 1 < L - 2),
        if_neg (lt_irrefl 1), if_pos (by omega : (0:Nat) < 1),
        if_pos (by omega : 1 < L - 2)]
      norm_num
  · rcases (show L = k + 3 ∨ L = k + 4 ∨ k + 4 < L by omega)
      with rfl | rfl | hL
    · have hs : windowIdx (k + 3) (k + 2) 2 =
          insert k (insert (k + 1) {k + 2}) := by
        ext j
        simp only [windowIdx, Finset.mem_filter, Finset.mem_range,
          Finset.mem_insert, Finset.mem_singleton]
        omega
      rw [hs, Finset.sum_insert (by
          simp only [Finset.mem_insert, Finset.mem_singleton]; omega),
        Finset.sum_insert (by
          simp only [Finset.mem_singleton]; omega),
        Finset.sum_singleton,
        Finset.card_insert_of_not_mem (by
          simp only [Finset.mem_insert, Finset.mem_singleton]; omega),
        Finset.card_insert_of_not_mem (by
          simp only [Finset.mem_singleton]; omega),
        Finset.card_singleton]
      rw [if_pos (by omega : 1 < k + 2), if_pos (by omega : 0 < k + 2),
        if_neg (by omega : ¬(k + 2 < k + 3 - 1)),
        if_neg (by omega : ¬(k + 2 < k + 3 - 2)),
        if_pos (by omega : 1 < k + 2),
        if_neg (by omega : ¬(k + 2 < k + 3 - 2)),
        if_neg (by omega : ¬(k + 2 < k + 3 - 1))]
      norm_num
      rw [show k + 1 + 1 - 2 = k from by omega]
      ring
    · have hs : windowIdx (k + 4) (k + 2) 2 =
          insert k (insert (k + 1) (insert (k + 2) {k + 3})) := by
        ext j
        simp only [windowIdx, Finset.mem_filter, Finset.mem_range,
          Finset.mem_insert, Finset.mem_singleton]
        omega
      rw [hs, Finset.sum_insert (by
          simp only [Finset.mem_insert, Finset.mem_singleton]; omega),
        Finset.sum_insert (by
          simp only [Finset.mem_insert, Finset.mem_singleton]; omega),
        Finset.sum_insert (by
          simp only [Finset.mem_singleton]; omega),
        Finset.sum_singleton,
        Finset.card_insert_of_not_mem (by
          simp only [Finset.mem_insert, Finset.mem_singleton]; omega),
        Finset.card_insert_of_not_mem (by
          simp only [Finset.mem_insert, Finset.mem_singleton]; omega),
        Finset.card_insert_of_not_mem (by
          simp only [Finset.mem_singleton]; omega),
        Finset.card_singleton]
      rw [if_pos (by omega : 1 < k + 2), if_pos (by omega : 0 < k + 2),
        if_pos (by omega : k + 2 < k + 4 - 1),
        if_neg (by omega : ¬(k + 2 < k + 4 - 2)),
        if_pos (by omega : 1 < k + 2),
        if_neg (by omega : ¬(k + 2 < k + 4 - 2)),
        if_pos (by omega : k + 2 < k + 4 - 1)]
      norm_num
      rw [show k + 1 + 1 - 2 = k from by omega]
      ring
    · have hs : windowIdx L (k + 2) 2 =
          insert k (insert (k + 1) (insert (k + 2)
            (insert (k + 3) {k + 4}))) := by
        ext j
        simp only [windowIdx, Finset.mem_filter, Finset.mem_range,
          Finset.mem_insert, Finset.mem_singleton]
        omega
      rw [hs, Finset.sum_insert (by
          simp only [Finset.mem_insert, Finset.mem_singleton]; omega),
        Finset.sum_insert (by
          simp only [Finset.mem_insert, Finset.mem_singleton]; omega),
        Finset.sum_insert (by
          simp only [Finset.mem_insert, Finset.mem_singleton]; omega),
        Finset.sum_insert (by
          simp only [Finset.mem_singleton]; omega),
        Finset.sum_singleton,
        Finset.card_insert_of_not_mem (by
          simp only [Finset.mem_insert, Finset.mem_singleton]; omega),
        Finset.card_insert_of_not_mem (by
          simp only [Finset.mem_insert, Finset.mem_singleton]; omega),
        Finset.card_insert_of_not_mem (by
          simp only [Finset.mem_insert, Finset.mem_singleton]; omega),
        Finset.card_insert_of_not_mem (by
          simp only [Finset.mem_singleton]; omega),
        Finset.card_singleton]
      rw [if_pos (by omega : 1 < k + 2), if_pos (by omega : 0 < k + 2),
        if_pos (by omega : k + 2 < L - 1),
        if_pos (by omega : k + 2 < L - 2),
        if_pos (by omega : 1 < k + 2),
        if_pos (by omega : k + 2 < L - 2)]
      norm_num
      rw [show k + 1 + 1 - 2 = k from by omega]
      ring

/-- C2: for every rectangular alignment with at least one sequence and
every column index i, the second pass sets gapWindow1 to the average of
gapFraction over the existing columns among i-1..i+1 and gapWindow2 to
the average over the existing columns among i-2..i+2, the denominator
being the number of existing columns; for a single-column alignment both
windows equal gapFraction. -/
theorem secondPassWindows (aln : List SeqRecord) (i : Nat)
    (hrect : rectangular aln) (hseq : 0 < numSequences aln)
    (hi : i < numColumns aln) :
    gapWindow1 aln i = window1Spec aln i ∧
    gapWindow2 aln i = window2Spec aln i ∧
    (numColumns aln = 1 →
      gapWindow1 aln 0 = gapFraction aln 0 ∧
      gapWindow2 aln 0 = gapFraction aln 0) := by
  refine ⟨?_, ?_, ?_⟩
  · exact windowAvg1 (fun j => gapFraction aln j) (numColumns aln) i hi
  · exact windowAvg2 (fun j => gapFraction aln j) (numColumns aln) i hi
  · intro hL
    constructor
    · simp [gapWindow1, hL]
    · simp [gapWindow2, hL]

/-- Concrete two-row, two-column alignment used by witnesses. -/
def wr1 : SeqRecord := ⟨['A', 'B'], "s1", "n1", "d1", [], [], [], []⟩

/-- Second row of the two-column witness alignment. -/
def wr2 : SeqRecord := ⟨['A', 'B'], "s2", "n2", "d2", [], [], [], []⟩

/-- A concrete rectangular two-row, two-column alignment. -/
def wAln2 : List SeqRecord := [wr1, wr2]

/-- First row of the three-column witness alignment. -/
def wr3 : SeqRecord := ⟨['A', '-', 'A'], "t1", "t1", "", [], [], [], []⟩

/-- Second row of the three-column witness alignment. -/
def wr4 : SeqRecord := ⟨['A', 'A', 'A'], "t2", "t2", "", [], [], [], []⟩

/-- A concrete rectangular two-row, three-column alignment. -/
def wAln3 : List SeqRecord := [wr3, wr4]

/-- A concrete single-row, single-column alignment. -/
def wrSingle : SeqRecord := ⟨['A'], "u1", "u1", "", [], [], [], []⟩

/-- A model with six zero coefficients, zero intercept and the default
threshold 0.5. -/
noncomputable def mZero : AliFilterModel := ⟨List.replicate 6 0, 0, 0.5⟩

/-- A model with six zero coefficients, zero intercept and an unreachable
threshold above 1. -/
noncomputable def mHigh : AliFilterModel := ⟨List.replicate 6 0, 0, 1.5⟩

/-- Witness for secondPassWindows at the concrete three-column
alignment. -/
theorem secondPassWindows_witness :
    rectangular wAln3 ∧ 0 < numSequences wAln3 ∧ 1 < numColumns wAln3 ∧
    (gapWindow1 wAln3 1 = window1Spec wAln3 1 ∧
     gapWindow2 wAln3 1 = window2Spec wAln3 1 ∧
     (numColumns wAln3 = 1 →
       gapWindow1 wAln3 0 = gapFraction wAln3 0 ∧
       gapWindow2 wAln3 0 = gapFraction wAln3 0)) :=
  ⟨by decide, by decide, by decide,
    secondPassWindows wAln3 1 (by decide) (by decide) (by decide)⟩

/-- C1 (failing evaluation): getScores on a feature matrix with exactly
one row returns none, because numpy.squeeze of the (1, 1) dot product is
a 0-dimensional array whose iteration raises TypeError. -/
theorem getScores_single_row_fails :
    mZero.getScores [List.replicate 6 0] = none := by
  have hw : ∀ r ∈ [List.replicate 6 (0 : ℝ)],
      r.length = mZero.logisticModelCoefficients.length := by
    intro r hr
    simp only [List.mem_singleton] at hr
    subst hr
    simp [mZero]
  unfold AliFilterModel.getScores
  rw [if_pos hw,
    if_pos (show [List.replicate 6 (0 : ℝ)].length = 1 from rfl)]

/-- The feature matrix of the single-column witness alignment has exactly
one row. -/
theorem featureMatrix_single :
    featureMatrix [wrSingle] = [featureRow [wrSingle] 0] := by
  unfold featureMatrix
  rw [show numColumns [wrSingle] = 1 from rfl]
  rfl

/-- C9 (failing evaluation): filtering a single-column alignment with an
unreachable threshold raises (none) instead of producing a zero-column
alignment, through the same squeeze failure as getScores. -/
theorem filter_single_column_fails :
    mHigh.filter [wrSingle] = none := by
  unfold AliFilterModel.filter
  rw [featureMatrix_single]
  have hsc : mHigh.getScores [featureRow [wrSingle] 0] = none := by
    have hw : ∀ r ∈ [featureRow [wrSingle] 0],
        r.length = mHigh.logisticModelCoefficients.length := by
      intro r hr
      simp only [List.mem_singleton] at hr
      subst hr
      simp [featureRow, mHigh]
    unfold AliFilterModel.getScores
    rw [if_pos hw,
      if_pos (show [featureRow [wrSingle] 0].length = 1 from rfl)]
  rw [hsc]
  rfl

/-- Inversion of a successful getScores call: the scores are the sigmoid
scores of the feature rows. -/
theorem getScores_eq_some {m : AliFilterModel} {fs : List (List ℝ)}
    {s : List ℝ} (h : m.getScores fs = some s) :
    s = fs.map (fun r => scoreRow m r) := by
  unfold AliFilterModel.getScores at h
  by_cases h1 : ∀ r ∈ fs, r.length = m.logisticModelCoefficients.length
  · rw [if_pos h1] at h
    by_cases h2 : fs.length = 1
    · rw [if_pos h2] at h
      cases h
    · rw [if_neg h2] at h
      exact (Option.some_inj.mp h).symm
  · rw [if_neg h1] at h
    cases h

/-- The sigmoid is strictly positive. -/
theorem sigmoid_pos (z : ℝ) : 0 < sigmoid z := by
  unfold sigmoid
  positivity

/-- The sigmoid is strictly below one. -/
theorem sigmoid_lt_one (z : ℝ) : sigmoid z < 1 := by
  unfold sigmoid
  rw [div_lt_one (by positivity)]
  linarith [Real.exp_pos (-z)]

/-- A column has as many characters as the alignment has sequences. -/
theorem colChars_length (aln : List SeqRecord) (c : Nat) :
    (colChars aln c).length = numSequences aln := by
  simp [colChars, numSequences]

/-- The gap count of a column never exceeds the number of sequences. -/
theorem gapCount_le (aln : List SeqRecord) (c : Nat) :
    gapCount aln c ≤ numSequences aln := by
  rw [← colChars_length aln c]
  unfold gapCount
  exact List.countP_le_length _

/-- Each letter count of a column never exceeds the number of valid
characters of the column. -/
theorem letterCount_le_valid (aln : List SeqRecord) (c j : Nat) :
    letterCount aln c j ≤ validChars aln c := by
  apply List.countP_mono_left
  intro ch _ hch
  simp only [decide_eq_true_eq] at hch
  simp [hch]

/-- The number of valid characters of a column never exceeds the number
of sequences. -/
theorem validChars_le (aln : List SeqRecord) (c : Nat) :
    validChars aln c ≤ numSequences aln := by
  rw [← colChars_length aln c]
  unfold validChars
  exact List.countP_le_length _

/-- The largest letter count of a column never exceeds the number of
sequences. -/
theorem maxLetterCount_le (aln : List SeqRecord) (c : Nat) :
    maxLetterCount aln c ≤ numSequences aln := by
  apply Finset.sup_le
  intro j _
  calc letterCount aln c j ≤ validChars aln c := letterCount_le_valid aln c j
    _ ≤ numSequences aln := validChars_le aln c

/-- C8: for every rectangular alignment with at least one sequence and
every column, gapFraction and maxIdentityFraction lie in the closed unit
interval, shannonEntropy is nonnegative, and every score produced from
the alignment's feature matrix lies in the open interval (0, 1). -/
theorem featureInvariants (aln : List SeqRecord) (c : Nat)
    (hrect : rectangular aln) (hseq : 0 < numSequences aln)
    (hc : c < numColumns aln) :
    0 ≤ gapFraction aln c ∧ gapFraction aln c ≤ 1 ∧
    0 ≤ maxIdentityFraction aln c ∧ maxIdentityFraction aln c ≤ 1 ∧
    0 ≤ shannonEntropy aln c ∧
    (∀ (m : AliFilterModel) (scores : List ℝ),
      m.getScores (featureMatrix aln) = some scores →
      ∀ s ∈ scores, 0 < s ∧ s < 1) := by
  refine ⟨?_, ?_, ?_, ?_, ?_, ?_⟩
  · unfold gapFraction
    positivity
  · unfold gapFraction
    exact div_le_one_of_le₀ (Nat.cast_le.mpr (gapCount_le aln c))
      (Nat.cast_nonneg _)
  · unfold maxIdentityFraction
    split
    · positivity
    · exact le_refl 0
  · unfold maxIdentityFraction
    split
    · exact div_le_one_of_le₀ (Nat.cast_le.mpr (maxLetterCount_le aln c))
        (Nat.cast_nonneg _)
    · exact zero_le_one
  · unfold shannonEntropy
    split
    · rename_i hv
      unfold entropySum
      apply Finset.sum_nonneg
      intro j _
      by_cases hj : letterCount aln c j = 0
      · rw [if_pos hj]
      · rw [if_neg hj]
        have hvR : (0 : ℝ) < (validChars aln c : ℝ) := by
          exact_mod_cast hv
        have hp0 : (0 : ℝ) ≤
            (letterCount aln c j : ℝ) / (validChars aln c : ℝ) := by
          positivity
        have hp1 : (letterCount aln c j : ℝ) / (validChars aln c : ℝ) ≤ 1 :=
          div_le_one_of_le₀
            (Nat.cast_le.mpr (letterCount_le_valid aln c j))
            (Nat.cast_nonneg _)
        have hl := Real.log_nonpos hp0 hp1
        have h := mul_nonneg hp0 (neg_nonneg.mpr hl)
        rw [mul_neg] at h
        linarith
    · exact le_refl 0
  · intro m scores hsc s hs
    rw [getScores_eq_some hsc] at hs
    obtain ⟨r, _, rfl⟩ := List.mem_map.mp hs
    exact ⟨sigmoid_pos _, sigmoid_lt_one _⟩

/-- Witness for featureInvariants at the concrete three-column
alignment. -/
theorem featureInvariants_witness :
    rectangular wAln3 ∧ 0 < numSequences wAln3 ∧ 1 < numColumns wAln3 ∧
    (0 ≤ gapFraction wAln3 1 ∧ gapFraction wAln3 1 ≤ 1 ∧
     0 ≤ maxIdentityFraction wAln3 1 ∧ maxIdentityFraction wAln3 1 ≤ 1 ∧
     0 ≤ shannonEntropy wAln3 1 ∧
     (∀ (m : AliFilterModel) (scores : List ℝ),
       m.getScores (featureMatrix wAln3) = some scores →
       ∀ s ∈ scores, 0 < s ∧ s < 1)) :=
  ⟨by decide, by decide, by decide,
    featureInvariants wAln3 1 (by decide) (by decide) (by decide)⟩

/-- A letter index produced by letterIdx is one of the 26 buckets. -/
theorem letterIdx_lt {ch : Char} {j : Nat} (h : letterIdx ch = some j) :
    j < 26 := by
  unfold letterIdx at h
  by_cases hg : ch = '-'
  · rw [if_pos hg] at h
    cases h
  · rw [if_neg hg] at h
    by_cases hr : 65 ≤ ch.toUpper.toNat ∧ ch.toUpper.toNat ≤ 90
    · rw [if_pos hr] at h
      have := Option.some_inj.mp h
      omega
    · rw [if_neg hr] at h
      cases h

/-- The tally of one character across the 26 letter buckets: one bucket
receives it when it is a valid letter, none otherwise. -/
theorem letterTallyHead (ch : Char) :
    (if (letterIdx ch).isSome then (1 : ℕ) else 0) =
      ∑ j ∈ Finset.range 26,
        if decide (letterIdx ch = some j) then (1 : ℕ) else 0 := by
  cases h : letterIdx ch with
  | none => simp [h]
  | some v =>
    have hv : v < 26 := letterIdx_lt h
    simp only [h, Option.isSome_some, if_true, decide_eq_true_eq,
      Option.some.injEq]
    rw [Finset.sum_ite_eq (Finset.range 26) v (fun _ => 1),
      if_pos (Finset.mem_range.mpr hv)]

/-- The valid-character count of a list is the sum of its 26 letter
counts: each valid character is tallied in exactly one bucket. -/
theorem countP_valid_eq_sum (l : List Char) :
    l.countP (fun ch => (letterIdx ch).isSome) =
      ∑ j ∈ Finset.range 26,
        l.countP (fun ch => decide (letterIdx ch = some j)) := by
  induction l with
  | nil => simp
  | cons ch t ih =>
    have hstep : ∀ j : ℕ,
        (ch :: t).countP (fun c => decide (letterIdx c = some j)) =
          t.countP (fun c => decide (letterIdx c = some j)) +
            if decide (letterIdx ch = some j) then 1 else 0 :=
      fun j => List.countP_cons _ _ _
    have hcons : (ch :: t).countP (fun c => (letterIdx c).isSome) =
        t.countP (fun c => (letterIdx c).isSome) +
          if (letterIdx ch).isSome then 1 else 0 :=
      List.countP_cons _ _ _
    rw [hcons, ih, letterTallyHead ch, ← Finset.sum_add_distrib]
    exact Finset.sum_congr rfl fun j _ => (hstep j).symm

/-- validChars equals the sum of the letter counts of a column. -/
theorem validChars_eq_sum (aln : List SeqRecord) (c : Nat) :
    validChars aln c = ∑ j ∈ Finset.range 26, letterCount aln c j :=
  countP_valid_eq_sum (colChars aln c)

/-- Every character of a column is tallied as exactly one of gap, valid
letter, or excluded; excluded characters enter neither the gap count nor
the letter counts. -/
theorem countP_partition (l : List Char) :
    l.countP (fun ch => decide (ch = '-')) +
      l.countP (fun ch => (letterIdx ch).isSome) +
      l.countP (fun ch => decide (¬ch = '-' ∧ letterIdx ch = none)) =
      l.length := by
  induction l with
  | nil => simp
  | cons ch t ih =>
    simp only [List.countP_cons, List.length_cons]
    by_cases hg : ch = '-'
    · have hnone : letterIdx ch = none := by
        unfold letterIdx
        rw [if_pos hg]
      rw [if_pos (by simp [hg]), if_neg (by simp [hnone]),
        if_neg (by simp [hg])]
      omega
    · cases h : letterIdx ch with
      | none =>
        rw [if_neg (by simp [hg]), if_neg (by simp [h]),
          if_pos (by simp [hg, h])]
        omega
      | some v =>
        rw [if_neg (by simp [hg]), if_pos (by simp [h]),
          if_neg (by simp [h])]
        omega

/-- The entropy sum of the source equals minus the sum of p log p over
the letters with nonzero count, with p the count divided by the
valid-character total. -/
theorem entropySum_eq (aln : List SeqRecord) (c : Nat) :
    entropySum aln c =
      -∑ j ∈ (Finset.range 26).filter (fun j => letterCount aln c j ≠ 0),
        ((letterCount aln c j : ℝ) / (validChars aln c : ℝ) *
          Real.log ((letterCount aln c j : ℝ) / (validChars aln c : ℝ))) := by
  rw [← Finset.sum_neg_distrib, Finset.sum_filter]
  unfold entropySum
  apply Finset.sum_congr rfl
  intro j _
  by_cases h : letterCount aln c j = 0
  · simp [h]
  · simp [h]

/-- C3: per-column features follow the specified formulas, valid
characters are exactly those tallied in the letter buckets, and gap,
valid and excluded characters partition the column. -/
theorem columnFeatures_spec (aln : List SeqRecord) (c : Nat)
    (hrect : rectangular aln) (hseq : 0 < numSequences aln)
    (hc : c < numColumns aln) :
    gapFraction aln c =
      ((colChars aln c).countP (fun ch => decide (ch = '-')) : ℝ) /
        (numSequences aln : ℝ) ∧
    maxIdentityFraction aln c =
      (if 0 < validChars aln c then
        (maxLetterCount aln c : ℝ) / (numSequences aln : ℝ) else 0) ∧
    shannonEntropy aln c =
      (if 0 < validChars aln c then
        -∑ j ∈ (Finset.range 26).filter (fun j => letterCount aln c j ≠ 0),
          ((letterCount aln c j : ℝ) / (validChars aln c : ℝ) *
            Real.log ((letterCount aln c j : ℝ) / (validChars aln c : ℝ)))
       else 0) ∧
    ((distanceFromExtremity aln c : ℝ) =
      min (c : ℝ) ((numColumns aln : ℝ) - 1 - (c : ℝ))) ∧
    validChars aln c = ∑ j ∈ Finset.range 26, letterCount aln c j ∧
    gapCount aln c + validChars aln c +
      (colChars aln c).countP
        (fun ch => decide (¬ch = '-' ∧ letterIdx ch = none)) =
      numSequences aln := by
  refine ⟨rfl, rfl, ?_, ?_, validChars_eq_sum aln c, ?_⟩
  · unfold shannonEntropy
    split
    · exact entropySum_eq aln c
    · rfl
  · unfold distanceFromExtremity
    have h1 : ((numColumns aln - 1 - c : ℕ) : ℝ) =
        (numColumns aln : ℝ) - 1 - (c : ℝ) := by
      have h2 : numColumns aln - 1 - c = numColumns aln - (1 + c) := by
        omega
      rw [h2, Nat.cast_sub (by omega : 1 + c ≤ numColumns aln)]
      push_cast
      ring
    rw [Nat.cast_min, h1]
  · have h := countP_partition (colChars aln c)
    rw [colChars_length] at h
    exact h

/-- Witness for columnFeatures_spec at the concrete three-column
alignment. -/
theorem columnFeatures_spec_witness :
    rectangular wAln3 ∧ 0 < numSequences wAln3 ∧ 1 < numColumns wAln3 ∧
    (gapFraction wAln3 1 =
      ((colChars wAln3 1).countP (fun ch => decide (ch = '-')) : ℝ) /
        (numSequences wAln3 : ℝ) ∧
     maxIdentityFraction wAln3 1 =
      (if 0 < validChars wAln3 1 then
        (maxLetterCount wAln3 1 : ℝ) / (numSequences wAln3 : ℝ) else 0) ∧
     shannonEntropy wAln3 1 =
      (if 0 < validChars wAln3 1 then
        -∑ j ∈ (Finset.range 26).filter (fun j => letterCount wAln3 1 j ≠ 0),
          ((letterCount wAln3 1 j : ℝ) / (validChars wAln3 1 : ℝ) *
            Real.log ((letterCount wAln3 1 j : ℝ) / (validChars wAln3 1 : ℝ)))
       else 0) ∧
     ((distanceFromExtremity wAln3 1 : ℝ) =
      min ((1 : ℕ) : ℝ) ((numColumns wAln3 : ℝ) - 1 - ((1 : ℕ) : ℝ))) ∧
     validChars wAln3 1 = ∑ j ∈ Finset.range 26, letterCount wAln3 1 j ∧
     gapCount wAln3 1 + validChars wAln3 1 +
      (colChars wAln3 1).countP
        (fun ch => decide (¬ch = '-' ∧ letterIdx ch = none)) =
      numSequences wAln3) :=
  ⟨by decide, by decide, by decide,
    columnFeatures_spec wAln3 1 (by decide) (by decide) (by decide)⟩

/-- Keep the characters of a sequence at the positions where a boolean
mask is true, preserving relative order. -/
def applyMask (mask : List Bool) (s : List Char) : List Char :=
  (List.zip mask s).filterMap (fun p => if p.1 then some p.2 else none)

/-- Keep the characters of a sequence at the positions where a textual
mask holds the character 1, preserving relative order. -/
def maskSelect (mask : List Char) (s : List Char) : List Char :=
  (List.zip mask s).filterMap (fun p => if p.1 = '1' then some p.2 else none)

/-- The index-driven selection of AliFilterModel.filter coincides with
applying the boolean threshold mask to the sequence. -/
theorem filterRow_seq_eq (t : ℝ) :
    ∀ (scores : List ℝ) (s : List Char), s.length = scores.length →
      (List.range scores.length).filterMap (fun i =>
        if t ≤ scores.getD i 0 then some (s.getD i ' ') else none) =
      applyMask (scores.map (fun x => decide (t ≤ x))) s := by
  intro scores
  induction scores with
  | nil =>
    intro s _
    simp [applyMask]
  | cons a as ih =>
    intro s hs
    cases s with
    | nil => simp at hs
    | cons chr cs =>
      have hlen : cs.length = as.length := by
        simpa using hs
      rw [show (a :: as).length = as.length + 1 from rfl,
        List.range_succ_eq_map]
      rw [List.filterMap_cons, List.map_cons]
      have htail : (List.map Nat.succ (List.range as.length)).filterMap
          (fun i => if t ≤ (a :: as).getD i 0 then
            some ((chr :: cs).getD i ' ') else none) =
          (List.range as.length).filterMap (fun i =>
            if t ≤ as.getD i 0 then some (cs.getD i ' ') else none) := by
        rw [List.filterMap_map]
        apply List.filterMap_congr
        intro i _
        simp [Function.comp]
      by_cases ht : t ≤ a
      · rw [if_pos (by simpa using ht)]
        rw [htail, ih cs hlen]
        simp [applyMask, ht]
      · rw [if_neg (by simpa using ht)]
        rw [htail, ih cs hlen]
        simp [applyMask, ht]

/-- Applying a boolean mask keeps exactly as many characters as the mask
has true entries. -/
theorem applyMask_length :
    ∀ (mask : List Bool) (s : List Char), mask.length = s.length →
      (applyMask mask s).length = mask.count true := by
  intro mask
  induction mask with
  | nil =>
    intro s _
    simp [applyMask]
  | cons b bs ih =>
    intro s hs
    cases s with
    | nil => simp at hs
    | cons chr cs =>
      have hlen : bs.length = cs.length := by
        simpa using hs
      have ih' := ih cs hlen
      unfold applyMask at ih' ⊢
      rw [List.zip_cons_cons, List.filterMap_cons]
      cases b
      · rw [if_neg (by simp)]
        rw [ih']
        simp [List.count_cons]
      · rw [if_pos rfl]
        rw [List.length_cons, ih']
        simp [List.count_cons]

/-- Selecting by the textual threshold mask coincides with applying the
boolean threshold mask. -/
theorem maskSelect_eq (t : ℝ) :
    ∀ (scores : List ℝ) (s : List Char),
      maskSelect (scores.map (fun x => if t ≤ x then '1' else '0')) s =
      applyMask (scores.map (fun x => decide (t ≤ x))) s := by
  intro scores
  induction scores with
  | nil =>
    intro s
    simp [maskSelect, applyMask]
  | cons a as ih =>
    intro s
    cases s with
    | nil => simp [maskSelect, applyMask]
    | cons chr cs =>
      have ih' := ih cs
      unfold maskSelect applyMask at ih' ⊢
      rw [List.map_cons, List.map_cons, List.zip_cons_cons,
        List.zip_cons_cons, List.filterMap_cons, List.filterMap_cons]
      by_cases ht : t ≤ a
      · rw [if_pos ht, if_pos rfl, if_pos (by simpa using ht), ih']
      · rw [if_neg ht, if_neg (show ¬(('0', chr).1 = '1') by simp), if_neg (by simpa using ht), ih']

/-- A successful getScores call returns one score per feature row. -/
theorem getScores_length {m : AliFilterModel} {aln : List SeqRecord}
    {scores : List ℝ} (h : m.getScores (featureMatrix aln) = some scores) :
    scores.length = numColumns aln := by
  rw [getScores_eq_some h]
  simp [featureMatrix]

/-- Indexing a mapped list below its length applies the function to the
indexed element. -/
theorem getD_map_lt {α β : Type} (f : α → β) (l : List α) (k : Nat)
    (hk : k < l.length) (d : α) (d' : β) :
    (l.map f).getD k d' = f (l.getD k d) := by
  rw [List.getD_eq_getElem?_getD, List.getElem?_map,
    List.getElem?_eq_getElem hk, List.getD_eq_getElem?_getD,
    List.getElem?_eq_getElem hk]
  rfl

/-- C4: a successful filter keeps every row in order with all per-row
metadata unchanged, and every row's sequence is the source sequence
restricted to the columns whose score reaches the threshold, so its
length is the number of true mask entries. -/
theorem filterPreservesRows (m : AliFilterModel) (aln out : List SeqRecord)
    (hrect : rectangular aln) (hf : m.filter aln = some out) :
    out.length = aln.length ∧
    ∃ scores, m.getScores (featureMatrix aln) = some scores ∧
      ∀ k, k < aln.length →
        ((out.getD k dRec).id = (aln.getD k dRec).id ∧
         (out.getD k dRec).name = (aln.getD k dRec).name ∧
         (out.getD k dRec).description = (aln.getD k dRec).description ∧
         (out.getD k dRec).dbxrefs = (aln.getD k dRec).dbxrefs ∧
         (out.getD k dRec).features = (aln.getD k dRec).features ∧
         (out.getD k dRec).annotations = (aln.getD k dRec).annotations ∧
         (out.getD k dRec).letterAnnotations =
           (aln.getD k dRec).letterAnnotations ∧
         (out.getD k dRec).seq =
           applyMask (scores.map (fun x => decide (m.threshold ≤ x)))
             ((aln.getD k dRec).seq) ∧
         (out.getD k dRec).seq.length =
           (scores.map (fun x => decide (m.threshold ≤ x))).count true) := by
  unfold AliFilterModel.filter at hf
  obtain ⟨scores, hsc, hout⟩ := Option.map_eq_some'.mp hf
  have hslen : scores.length = numColumns aln := getScores_length hsc
  subst hout
  refine ⟨by simp, scores, hsc, ?_⟩
  intro k hk
  have hget : (aln.map (fun r => filterRow m scores r)).getD k dRec =
      filterRow m scores (aln.getD k dRec) := by
    rw [getD_map_lt (fun r => filterRow m scores r) aln k hk dRec]
  have hmem : aln.getD k dRec ∈ aln := by
    rw [List.getD_eq_getElem?_getD, List.getElem?_eq_getElem hk]
    exact List.getElem_mem hk
  have hrow : (aln.getD k dRec).seq.length = scores.length := by
    rw [hslen]
    exact hrect _ hmem
  have hseqeq : (filterRow m scores (aln.getD k dRec)).seq =
      applyMask (scores.map (fun x => decide (m.threshold ≤ x)))
        ((aln.getD k dRec).seq) := by
    unfold filterRow
    exact filterRow_seq_eq m.threshold scores _ hrow
  refine ⟨?_, ?_, ?_, ?_, ?_, ?_, ?_, ?_, ?_⟩
  · rw [hget]
    rfl
  · rw [hget]
    rfl
  · rw [hget]
    rfl
  · rw [hget]
    rfl
  · rw [hget]
    rfl
  · rw [hget]
    rfl
  · rw [hget]
    rfl
  · rw [hget, hseqeq]
  · rw [hget, hseqeq]
    exact applyMask_length _ _ (by
      rw [List.length_map]
      exact hrow.symm)

/-- C10: when getMask and filter both succeed on the same alignment, the
filter retains, in every row, exactly the characters at the columns whose
mask character is 1. -/
theorem maskFilterAgree (m : AliFilterModel) (aln : List SeqRecord)
    (mask : List Char) (out : List SeqRecord) (hrect : rectangular aln)
    (hm : m.getMask aln = some mask) (hf : m.filter aln = some out) :
    out.length = aln.length ∧
    ∀ k, k < aln.length →
      (out.getD k dRec).seq = maskSelect mask ((aln.getD k dRec).seq) := by
  unfold AliFilterModel.getMask AliFilterModel.getMaskFromFeatures at hm
  obtain ⟨scores, hsc, hmask⟩ := Option.map_eq_some'.mp hm
  unfold AliFilterModel.filter at hf
  obtain ⟨scores2, hsc2, hout⟩ := Option.map_eq_some'.mp hf
  have hss : scores2 = scores := by
    rw [hsc] at hsc2
    exact (Option.some_inj.mp hsc2).symm
  subst hss
  subst hout
  have hslen : scores2.length = numColumns aln := getScores_length hsc
  refine ⟨by simp, ?_⟩
  intro k hk
  rw [getD_map_lt (fun r => filterRow m scores2 r) aln k hk dRec]
  have hmem : aln.getD k dRec ∈ aln := by
    rw [List.getD_eq_getElem?_getD, List.getElem?_eq_getElem hk]
    exact List.getElem_mem hk
  have hrow : (aln.getD k dRec).seq.length = scores2.length := by
    rw [hslen]
    exact hrect _ hmem
  have hseqeq : (filterRow m scores2 (aln.getD k dRec)).seq =
      applyMask (scores2.map (fun x => decide (m.threshold ≤ x)))
        ((aln.getD k dRec).seq) := by
    unfold filterRow
    exact filterRow_seq_eq m.threshold scores2 _ hrow
  rw [hseqeq, ← hmask]
  exact (maskSelect_eq m.threshold scores2 _).symm

/-- A dot product with an all-zero coefficient vector vanishes. -/
theorem dotList_zero (row : List ℝ) :
    ∀ k, dotList row (List.replicate k 0) = 0 := by
  induction row with
  | nil =>
    intro k
    simp [dotList]
  | cons a t ih =>
    intro k
    cases k with
    | zero => simp [dotList]
    | succ n =>
      have ihn := ih n
      unfold dotList at ihn ⊢
      rw [List.replicate_succ, List.zipWith_cons_cons, List.sum_cons, ihn]
      ring

/-- The zero model scores every feature row at one half. -/
theorem scoreRow_mZero (row : List ℝ) : scoreRow mZero row = 1 / 2 := by
  have hc : mZero.logisticModelCoefficients = List.replicate 6 0 := rfl
  have hi : mZero.logisticModelIntercept = 0 := rfl
  unfold scoreRow sigmoid
  rw [hc, hi, dotList_zero row 6]
  rw [show ((0 : ℝ) + 0) = 0 from by norm_num, neg_zero, Real.exp_zero]
  norm_num

/-- The feature matrix of the two-column witness alignment has two
rows. -/
theorem featureMatrix_wAln2 :
    featureMatrix wAln2 = [featureRow wAln2 0, featureRow wAln2 1] := by
  unfold featureMatrix
  rw [show numColumns wAln2 = 2 from rfl]
  rfl

/-- The zero model scores both columns of the witness alignment at one
half. -/
theorem getScores_mZero_wAln2 :
    mZero.getScores (featureMatrix wAln2) = some [1 / 2, 1 / 2] := by
  rw [featureMatrix_wAln2]
  unfold AliFilterModel.getScores
  have hw : ∀ r ∈ [featureRow wAln2 0, featureRow wAln2 1],
      r.length = mZero.logisticModelCoefficients.length := by
    intro r hr
    rcases List.mem_cons.mp hr with rfl | hr2
    · rfl
    · rcases List.mem_singleton.mp hr2 with rfl
      rfl
  rw [if_pos hw,
    if_neg (show ¬([featureRow wAln2 0, featureRow wAln2 1].length = 1)
      from by simp)]
  rw [List.map_cons, List.map_cons, List.map_nil, scoreRow_mZero,
    scoreRow_mZero]

/-- The zero model's default threshold is reached by the one-half scores,
so filtering the witness alignment keeps both columns and returns the
alignment unchanged. -/
theorem filter_mZero_wAln2 : mZero.filter wAln2 = some wAln2 := by
  unfold AliFilterModel.filter
  rw [getScores_mZero_wAln2, Option.map_some']
  congr 1
  have hrow : ∀ r : SeqRecord, r.seq = ['A', 'B'] →
      filterRow mZero [1 / 2, 1 / 2] r = r := by
    intro r hr
    unfold filterRow
    have hsel : (List.range ([(1:ℝ) / 2, 1 / 2]).length).filterMap (fun i =>
        if mZero.threshold ≤ ([(1:ℝ) / 2, 1 / 2]).getD i 0 then
          some (r.seq.getD i ' ') else none) = r.seq := by
      rw [show ([(1:ℝ) / 2, 1 / 2]).length = 2 from rfl,
        show List.range 2 = [0, 1] from rfl]
      rw [List.filterMap_cons, List.filterMap_cons, List.filterMap_nil]
      rw [if_pos (show mZero.threshold ≤ ([(1:ℝ) / 2, 1 / 2]).getD 0 0
          from by norm_num [mZero]),
        if_pos (show mZero.threshold ≤ ([(1:ℝ) / 2, 1 / 2]).getD 1 0
          from by norm_num [mZero])]
      rw [hr]
      rfl
    rw [hsel]
  rw [show wAln2 = [wr1, wr2] from rfl, List.map_cons, List.map_cons,
    List.map_nil, hrow wr1 rfl, hrow wr2 rfl]

/-- The zero model's mask on the witness alignment keeps both columns. -/
theorem getMask_mZero_wAln2 : mZero.getMask wAln2 = some ['1', '1'] := by
  unfold AliFilterModel.getMask AliFilterModel.getMaskFromFeatures
  rw [getScores_mZero_wAln2, Option.map_some']
  unfold AliFilterModel.getMaskFromScores
  rw [List.map_cons, List.map_cons, List.map_nil,
    if_pos (show mZero.threshold ≤ (1:ℝ) / 2 from by norm_num [mZero])]

/-- Witness for filterPreservesRows at the concrete two-column alignment
and the zero model. -/
theorem filterPreservesRows_witness :
    rectangular wAln2 ∧ mZero.filter wAln2 = some wAln2 ∧
    (wAln2.length = wAln2.length ∧
     ∃ scores, mZero.getScores (featureMatrix wAln2) = some scores ∧
       ∀ k, k < wAln2.length →
         ((wAln2.getD k dRec).id = (wAln2.getD k dRec).id ∧
          (wAln2.getD k dRec).name = (wAln2.getD k dRec).name ∧
          (wAln2.getD k dRec).description = (wAln2.getD k dRec).description ∧
          (wAln2.getD k dRec).dbxrefs = (wAln2.getD k dRec).dbxrefs ∧
          (wAln2.getD k dRec).features = (wAln2.getD k dRec).features ∧
          (wAln2.getD k dRec).annotations = (wAln2.getD k dRec).annotations ∧
          (wAln2.getD k dRec).letterAnnotations =
            (wAln2.getD k dRec).letterAnnotations ∧
          (wAln2.getD k dRec).seq =
            applyMask (scores.map (fun x => decide (mZero.threshold ≤ x)))
              ((wAln2.getD k dRec).seq) ∧
          (wAln2.getD k dRec).seq.length =
            (scores.map (fun x => decide (mZero.threshold ≤ x))).count
              true)) :=
  ⟨by decide, filter_mZero_wAln2,
    filterPreservesRows mZero wAln2 wAln2 (by decide) filter_mZero_wAln2⟩

/-- Witness for maskFilterAgree at the concrete two-column alignment and
the zero model. -/
theorem maskFilterAgree_witness :
    rectangular wAln2 ∧ mZero.getMask wAln2 = some ['1', '1'] ∧
    mZero.filter wAln2 = some wAln2 ∧
    (wAln2.length = wAln2.length ∧
     ∀ k, k < wAln2.length →
       (wAln2.getD k dRec).seq =
         maskSelect ['1', '1'] ((wAln2.getD k dRec).seq)) :=
  ⟨by decide, getMask_mZero_wAln2, filter_mZero_wAln2,
    maskFilterAgree mZero wAln2 ['1', '1'] wAln2 (by decide)
      getMask_mZero_wAln2 filter_mZero_wAln2⟩

/-- C5: the textual mask has one character per score, holding 1 exactly
when the score reaches the threshold (inclusive); an absent FastThreshold
defaults to 0.5; the zero model scores every row at one half and its
default threshold marks every such score with 1. -/
theorem maskFromScores_spec (m : AliFilterModel) (scores : List ℝ) :
    (m.getMaskFromScores scores).length = scores.length ∧
    (∀ i, i < scores.length →
      ((m.getMaskFromScores scores).getD i '0' = '1' ↔
        m.threshold ≤ scores.getD i 0)) ∧
    (∀ cfg : ModelConfig, cfg.fastThreshold = none →
      ∀ mm, initModel cfg = some mm → mm.threshold = 0.5) ∧
    (∀ row : List ℝ, scoreRow mZero row = 1 / 2) ∧
    mZero.getMaskFromScores (scores.map (fun _ => (1 / 2 : ℝ))) =
      scores.map (fun _ => '1') := by
  refine ⟨by simp [AliFilterModel.getMaskFromScores], ?_, ?_,
    scoreRow_mZero, ?_⟩
  · intro i hi
    unfold AliFilterModel.getMaskFromScores
    rw [getD_map_lt (fun x => if m.threshold ≤ x then '1' else '0')
      scores i hi 0]
    by_cases h : m.threshold ≤ scores.getD i 0
    · simp [h]
    · simp [h]
  · intro cfg hft mm hmm
    rcases cfg with ⟨co, ic, ft⟩
    simp only at hft
    subst hft
    cases co with
    | none => simp [initModel] at hmm
    | some cs =>
      cases ic with
      | none => simp [initModel] at hmm
      | some i0 =>
        simp only [initModel, Option.some_inj] at hmm
        rw [← hmm]
        rfl
  · unfold AliFilterModel.getMaskFromScores
    rw [List.map_map]
    apply List.map_congr_left
    intro a _
    simp only [Function.comp_apply]
    rw [if_pos (show mZero.threshold ≤ (1:ℝ) / 2 from by norm_num [mZero])]

/-- Witness for maskFromScores_spec at the zero model and a concrete
one-score list. -/
theorem maskFromScores_spec_witness :
    (mZero.getMaskFromScores [(1:ℝ) / 3]).length = [(1:ℝ) / 3].length ∧
    (∀ i, i < [(1:ℝ) / 3].length →
      ((mZero.getMaskFromScores [(1:ℝ) / 3]).getD i '0' = '1' ↔
        mZero.threshold ≤ [(1:ℝ) / 3].getD i 0)) ∧
    (∀ cfg : ModelConfig, cfg.fastThreshold = none →
      ∀ mm, initModel cfg = some mm → mm.threshold = 0.5) ∧
    (∀ row : List ℝ, scoreRow mZero row = 1 / 2) ∧
    mZero.getMaskFromScores ([(1:ℝ) / 3].map (fun _ => (1 / 2 : ℝ))) =
      [(1:ℝ) / 3].map (fun _ => '1') :=
  maskFromScores_spec mZero [(1:ℝ) / 3]

/-- C6 counterexample: a configuration whose coefficient list has five
entries (not six) is accepted by the constructor; no failure occurs at
model-load time. -/
theorem initModel_wrong_count_succeeds :
    initModel ⟨some [1, 2, 3, 4, 5], some 0, none⟩ =
      some ⟨[1, 2, 3, 4, 5], 0, 0.5⟩ := rfl

/-- C6 amended: construction fails exactly when the coefficient or
intercept field is missing; a coefficient count different from six is
accepted at construction, and scoring a nonempty width-six feature matrix
with such a model fails later at the dot product's shape check. -/
theorem initModel_amended :
    (∀ cfg : ModelConfig,
      (initModel cfg).isSome ↔
        (cfg.coefficients.isSome ∧ cfg.intercept.isSome)) ∧
    (∀ (cs : List ℝ) (ic : ℝ) (ft : Option ℝ) (mm : AliFilterModel)
        (rows : List (List ℝ)),
      initModel ⟨some cs, some ic, ft⟩ = some mm →
      cs.length ≠ 6 →
      rows ≠ [] →
      (∀ r ∈ rows, r.length = 6) →
      mm.getScores rows = none) := by
  constructor
  · intro cfg
    rcases cfg with ⟨co, ic, ft⟩
    cases co <;> cases ic <;> simp [initModel]
  · intro cs ic ft mm rows hmm hlen hne hwidth
    simp only [initModel, Option.some_inj] at hmm
    unfold AliFilterModel.getScores
    rw [if_neg]
    intro hall
    rcases rows with _ | ⟨r, rs⟩
    · exact hne rfl
    · have h1 := hall r (List.mem_cons_self r rs)
      have h2 := hwidth r (List.mem_cons_self r rs)
      rw [h2, ← hmm] at h1
      exact hlen h1.symm

/-- Witness for initModel_amended: the five-coefficient model is
constructed, then scoring a two-row width-six feature matrix fails. -/
theorem initModel_amended_witness :
    initModel ⟨some [1, 2, 3, 4, 5], some 0, none⟩ =
      some ⟨[1, 2, 3, 4, 5], 0, 0.5⟩ ∧
    ([1, 2, 3, 4, 5] : List ℝ).length ≠ 6 ∧
    ([[0, 0, 0, 0, 0, 0], [0, 0, 0, 0, 0, 0]] : List (List ℝ)) ≠ [] ∧
    (∀ r ∈ ([[0, 0, 0, 0, 0, 0], [0, 0, 0, 0, 0, 0]] : List (List ℝ)),
      r.length = 6) ∧
    (AliFilterModel.mk [1, 2, 3, 4, 5] 0 0.5).getScores
      [[0, 0, 0, 0, 0, 0], [0, 0, 0, 0, 0, 0]] = none :=
  ⟨rfl, by simp, by simp,
    by
      intro r hr
      rcases List.mem_cons.mp hr with rfl | hr2
      · rfl
      · rcases List.mem_singleton.mp hr2 with rfl
        rfl,
    initModel_amended.2 [1, 2, 3, 4, 5] 0 none
      ⟨[1, 2, 3, 4, 5], 0, 0.5⟩
      [[0, 0, 0, 0, 0, 0], [0, 0, 0, 0, 0, 0]] rfl (by simp) (by simp)
      (by
        intro r hr
        rcases List.mem_cons.mp hr with rfl | hr2
        · rfl
        · rcases List.mem_singleton.mp hr2 with rfl
          rfl)⟩

/-- C7 counterexample: the pipeline does not fail on the zero-sequence
alignment; the alignment length is zero, the feature matrix is empty, and
both the mask and the filtered alignment are produced (empty). -/
theorem emptyAlignment_pipeline_succeeds :
    numColumns ([] : List SeqRecord) = 0 ∧
    featureMatrix ([] : List SeqRecord) = [] ∧
    mZero.getMask ([] : List SeqRecord) = some [] ∧
    mZero.filter ([] : List SeqRecord) = some [] := by
  refine ⟨rfl, rfl, ?_, ?_⟩
  · unfold AliFilterModel.getMask AliFilterModel.getMaskFromFeatures
      AliFilterModel.getScores
    rw [show featureMatrix ([] : List SeqRecord) = [] from rfl]
    rw [if_pos (by intro r hr; cases hr), if_neg (by simp)]
    rfl
  · unfold AliFilterModel.filter AliFilterModel.getScores
    rw [show featureMatrix ([] : List SeqRecord) = [] from rfl]
    rw [if_pos (by intro r hr; cases hr), if_neg (by simp)]
    rfl

/-- C7 amended: an alignment with zero sequences necessarily has zero
columns (the alignment length is the maximum row length), and the
pipeline succeeds on it with empty outputs instead of failing. -/
theorem zeroSequences_amended (m : AliFilterModel) (aln : List SeqRecord)
    (h : numSequences aln = 0) :
    numColumns aln = 0 ∧ featureMatrix aln = [] ∧
    m.getMask aln = some [] ∧ m.filter aln = some [] := by
  have haln : aln = [] := List.length_eq_zero.mp h
  subst haln
  refine ⟨rfl, rfl, ?_, ?_⟩
  · unfold AliFilterModel.getMask AliFilterModel.getMaskFromFeatures
      AliFilterModel.getScores
    rw [show featureMatrix ([] : List SeqRecord) = [] from rfl]
    rw [if_pos (by intro r hr; cases hr), if_neg (by simp)]
    rfl
  · unfold AliFilterModel.filter AliFilterModel.getScores
    rw [show featureMatrix ([] : List SeqRecord) = [] from rfl]
    rw [if_pos (by intro r hr; cases hr), if_neg (by simp)]
    rfl

/-- Witness for zeroSequences_amended at the empty alignment and the
unreachable-threshold model. -/
theorem zeroSequences_amended_witness :
    numSequences ([] : List SeqRecord) = 0 ∧
    (numColumns ([] : List SeqRecord) = 0 ∧
     featureMatrix ([] : List SeqRecord) = [] ∧
     mHigh.getMask ([] : List SeqRecord) = some [] ∧
     mHigh.filter ([] : List SeqRecord) = some []) :=
  ⟨rfl, zeroSequences_amended mHigh [] rfl⟩
